import Mathlib

/-
Verification of the lily miner PoSt extractor (tasks/actorstate/miner/post.go)
and the datacap v9 versioned state adapter (chain/actors/builtin/datacap/v9.go)
against the natural-language specification.

The Go code is shallowly embedded: pure data is translated to Lean structures,
the imperative extraction loop becomes explicit state passing over a fold, and
each Go function result of shape (value, error) together with the possibility
of a runtime panic is embedded as the three-constructor type GoResult.
-/

set_option autoImplicit false

namespace Lily

/-- Outcome of a Go computation: a returned value, a returned error
(with the wrapped message chain flattened to one string), or a runtime
panic that aborts the process. -/
inductive GoResult (α : Type) where
  | ok : α → GoResult α
  | err : String → GoResult α
  | crash : String → GoResult α
deriving DecidableEq, Repr

/-- bitfield.BitField: a set of non-negative sector identifiers; members are
listed in the order ForEach visits them (ascending in well-formed bitfields). -/
abbrev BitField := List Nat

/-- bitfield.SubtractBitField: the elements of a that are not in b; neither
argument is mutated. -/
def subtractBitField (a b : BitField) : BitField :=
  a.filter (fun x => !b.contains x)

/-- exitcode.ExitCode.IsError: any nonzero exit code reports failure. -/
def exitCodeIsError (c : Int) : Bool := c != 0

/-- An execution receipt carrying the exit code. -/
structure Receipt where
  exitCode : Int
deriving DecidableEq, Repr

/-- miner.PoStPartition: one entry of SubmitWindowedPoStParams.Partitions,
a partition index paired with the set of sectors skipped in this proof. -/
structure PoStPartition where
  index : Nat
  skipped : BitField
deriving DecidableEq, Repr

/-- miner.SubmitWindowedPoStParams, keeping the field the extractor reads. -/
structure SubmitWindowedPoStParams where
  partitions : List PoStPartition
deriving DecidableEq, Repr

/-- A chain message. The CBOR parameter bytes are embedded by their decoding:
`params = some p` stands for bytes that UnmarshalCBOR decodes to p, and
`params = none` stands for malformed bytes on which UnmarshalCBOR fails. -/
structure Message where
  toAddr : String
  method : Nat
  params : Option SubmitWindowedPoStParams
deriving DecidableEq, Repr

/-- lens.ExecutedMessage: message, receipt (none when absent) and cid. -/
structure ExecutedMessage where
  message : Message
  receipt : Option Receipt
  cid : String
deriving DecidableEq, Repr

/-- Modelled from the spec: the per-version miner partition adapter
(chain/actors/builtin/miner is not under src/). Spec section 3: each
partition owns a set of sector identifiers; AllSectors exposes it. -/
structure PartitionData where
  allSectorsSet : BitField
deriving DecidableEq, Repr

/-- A Go variable of the interface type miner.Partition: `none` is the nil
interface, which is the zero value produced by indexing a
map[uint64]miner.Partition at an absent key. -/
abbrev Partition := Option PartitionData

/-- Calling AllSectors through a miner.Partition interface value: on a
non-nil adapter it returns the stored sector set; on the nil interface the
method dispatch panics. -/
def Partition.AllSectors : Partition → GoResult BitField
  | some p => .ok p.allSectorsSet
  | none => .crash "invalid memory address or nil pointer dereference"

/-- dline.Info, keeping the field the extractor reads. -/
structure DeadlineInfo where
  index : Nat
deriving DecidableEq, Repr

/-- Modelled from the spec: a loaded deadline holding its partitions;
ForEachPartition visits the (index, partition) pairs in this list order. -/
structure Deadline where
  partitionsOf : List (Nat × PartitionData)

/-- Modelled from the spec: the miner.State adapter surface used by the
extractor (DeadlineInfo at an epoch, LoadDeadline by index). -/
structure MinerState where
  deadlineInfo : Nat → GoResult DeadlineInfo
  loadDeadline : Nat → GoResult Deadline

/-- The loadPartitions closure of PoStExtractor.Extract: resolve the deadline
open at `epoch`, load it, and collect its partitions into a map from
partition index to partition (the ForEachPartition callback never errors). -/
def loadPartitions (state : MinerState) (epoch : Nat) :
    GoResult (List (Nat × PartitionData)) :=
  match state.deadlineInfo epoch with
  | .err e => .err ("deadline info: " ++ e)
  | .crash e => .crash e
  | .ok info =>
    match state.loadDeadline info.index with
    | .err e => .err ("load deadline: " ++ e)
    | .crash e => .crash e
    | .ok dline => .ok dline.partitionsOf

/-- Modelled from the spec: MinerStateExtractionContext (section 4.3; its
constructor is not under src/). `prev` holds the previous miner state and the
previous tipset height when a previous state exists, and is none at genesis. -/
structure MinerStateExtractionContext where
  prev : Option (MinerState × Nat)

/-- HasPreviousState on the extraction context. -/
def MinerStateExtractionContext.HasPreviousState
    (ec : MinerStateExtractionContext) : Bool :=
  ec.prev.isSome

/-- minermodel.MinerSectorPost: one derived record. -/
structure MinerSectorPost where
  height : Int
  minerID : String
  sectorID : Nat
  postMessageCID : String
deriving DecidableEq, Repr

/-- The mutable locals of PoStExtractor.Extract that the per-message closure
updates: the accumulated records, the lazily loaded partition map (none until
first loaded), and an instrumentation counter of loadPartitions invocations. -/
structure LoopState where
  posts : List MinerSectorPost
  partitions : Option (List (Nat × PartitionData))
  partitionLoads : Nat
deriving DecidableEq, Repr

/-- The partition loop body of processPostMsg: for each decoded
(index, skipped) pair, index the partition map (a miss yields the nil
interface), take AllSectors, subtract the skipped set, and append the proven
sectors in ForEach order. -/
def collectSectors (pmap : List (Nat × PartitionData)) :
    List PoStPartition → GoResult (List Nat)
  | [] => .ok []
  | p :: rest =>
    match Partition.AllSectors (pmap.lookup p.index) with
    | .err e => .err ("all sectors: " ++ e)
    | .crash e => .crash e
    | .ok allSectors =>
      match collectSectors pmap rest with
      | .ok tail => .ok (subtractBitField allSectors p.skipped ++ tail)
      | .err e => .err e
      | .crash e => .crash e

/-- The lazy-load step at lines 74-79 of post.go: reuse the cached partition
map, or load it from the previous state at the previous height, counting the
load. -/
def ensurePartitions (prevState : MinerState) (prevHeight : Nat)
    (st : LoopState) : GoResult (List (Nat × PartitionData) × Nat) :=
  match st.partitions with
  | some pmap => .ok (pmap, st.partitionLoads)
  | none =>
    match loadPartitions prevState prevHeight with
    | .ok pmap => .ok (pmap, st.partitionLoads + 1)
    | .err e => .err ("load partitions: " ++ e)
    | .crash e => .crash e

/-- The guard at line 64 of post.go: the receipt is absent or its exit code
reports failure. -/
def receiptFailed (m : ExecutedMessage) : Bool :=
  match m.receipt with
  | none => true
  | some r => exitCodeIsError r.exitCode

/-- The processPostMsg closure: skip messages whose receipt is absent or
failed, decode the parameters (fatal on failure), lazily load the partition
map, collect the proven sectors, and append one record per sector tagged with
the previous height, the miner address, the sector id and the message cid. -/
def processPostMsg (prevState : MinerState) (prevHeight : Nat) (addr : String)
    (st : LoopState) (msg : ExecutedMessage) : GoResult LoopState :=
  if receiptFailed msg then
    .ok st
  else
    match msg.message.params with
    | none => .err "unmarshal post params"
    | some params =>
      match ensurePartitions prevState prevHeight st with
      | .err e => .err e
      | .crash e => .crash e
      | .ok (pmap, loads) =>
        match collectSectors pmap params.partitions with
        | .err e => .err e
        | .crash e => .crash e
        | .ok sectors =>
          .ok { posts := st.posts ++ sectors.map (fun s =>
                  { height := Int.ofNat prevHeight
                    minerID := addr
                    sectorID := s
                    postMessageCID := msg.cid })
                partitions := some pmap
                partitionLoads := loads }

/-- The message loop at lines 115-121 of post.go: process each executed
message addressed to the miner with method number 5 (SubmitWindowedPoSt),
wrapping a processPostMsg error and aborting the call on it. -/
def extractLoop (prevState : MinerState) (prevHeight : Nat) (addr : String) :
    LoopState → List ExecutedMessage → GoResult LoopState
  | st, [] => .ok st
  | st, msg :: rest =>
    if msg.message.toAddr == addr && msg.message.method == 5 then
      match processPostMsg prevState prevHeight addr st msg with
      | .ok st2 => extractLoop prevState prevHeight addr st2 rest
      | .err e => .err ("process post msg: " ++ e)
      | .crash e => .crash e
    else
      extractLoop prevState prevHeight addr st rest

/-- PoStExtractor.Extract. The call is embedded after the extraction context
has been built: `addr` is a.Address.String(), and `executedAndBlockMessages`
is the result the node returns for (a.Current, a.Executed) — passing it as a
value lets the theorems state that the genesis path is independent of it.
The Go result pair maps to GoResult (Option (List MinerSectorPost)):
`ok none` is the (nil, nil) genesis return, `ok (some l)` a completed call
returning the (always non-nil) posts slice. -/
def PoStExtractor.Extract (ec : MinerStateExtractionContext) (addr : String)
    (executedAndBlockMessages : GoResult (List ExecutedMessage)) :
    GoResult (Option (List MinerSectorPost)) :=
  match ec.prev with
  | none => .ok none
  | some (prevState, prevHeight) =>
    match executedAndBlockMessages with
    | .err e => .err ("getting executed and block messages: " ++ e)
    | .crash e => .crash e
    | .ok msgs =>
      match extractLoop prevState prevHeight addr
          { posts := [], partitions := none, partitionLoads := 0 } msgs with
      | .ok st => .ok (some st.posts)
      | .err e => .err e
      | .crash e => .crash e

/-- A message qualifies for processing when it is addressed to the miner with
method number 5. -/
def qualifies (addr : String) (m : ExecutedMessage) : Bool :=
  m.message.toAddr == addr && m.message.method == 5

/-- A receipt is present and reports success. -/
def receiptOk (m : ExecutedMessage) : Bool :=
  !receiptFailed m

/-- Every partition index a decoded message references is present in the
partition map. -/
def partitionsPresent (pmap : List (Nat × PartitionData))
    (m : ExecutedMessage) : Prop :=
  ∀ ps, m.message.params = some ps →
    ∀ p ∈ ps.partitions, (pmap.lookup p.index).isSome = true

/-- A message is qualifying, successfully executed and decodable: exactly the
messages whose processing reaches the partition logic. -/
def decodedQualifying (addr : String) (m : ExecutedMessage) : Bool :=
  qualifies addr m && receiptOk m && m.message.params.isSome

/-
Datacap v9 versioned state adapter (chain/actors/builtin/datacap/v9.go).
-/

/-- The hash functions a HAMT can be configured with; v9 uses sha256
(the function state9.VerifiedClientsMapHashFunction returns). -/
inductive HashFunction where
  | sha256
deriving DecidableEq, Repr

/-- The configuration a hash-indexed map is opened with: bit-width and hash
function (spec section 3: version-specific configuration, not defaults). -/
structure MapConfig where
  bitwidth : Nat
  hashFn : HashFunction
deriving DecidableEq, Repr

/-- Modelled from the spec: the serialized HAMT behind a root cid
(go-state-types adt, not under src/). The spec invariant is that the
bit-width and hash function used to read must exactly match those used to
write the snapshot, or lookups silently fail; the model records the
configuration the trie was written with next to its entries. -/
structure AdtMapRoot where
  writtenWith : MapConfig
  entries : List (String × Nat)
deriving DecidableEq, Repr

/-- A map handle: a root opened for reading and writing under a chosen
configuration. -/
structure AdtMapHandle where
  root : AdtMapRoot
  readWith : MapConfig
deriving DecidableEq, Repr

/-- adt9.AsMap: open a root with an explicit bit-width; the v9 adt package
hashes keys with sha256. -/
def adtAsMap (root : AdtMapRoot) (bitwidth : Nat) : AdtMapHandle :=
  { root := root, readWith := { bitwidth := bitwidth, hashFn := .sha256 } }

/-- Map lookup: reading under the configuration the trie was written with
finds the stored entry; under any other configuration the traversal lands in
the wrong slots and the lookup silently misses. -/
def AdtMapHandle.get (h : AdtMapHandle) (key : String) : Option Nat :=
  if h.readWith = h.root.writtenWith then h.root.entries.lookup key else none

/-- Map update: stores the entry for the key (replacing an existing one)
under the handle's configuration. -/
def AdtMapHandle.put (h : AdtMapHandle) (key : String) (value : Nat) :
    AdtMapRoot :=
  { writtenWith := h.readWith
    entries := (key, value) :: h.root.entries.filter (fun e => e.1 != key) }

/-- The token state embedded in datacap9.State, keeping the fields v9.go
reads: the HAMT bit-width and the balances map root. -/
structure TokenState where
  hamtBitWidth : Nat
  balances : AdtMapRoot
deriving DecidableEq, Repr

/-- datacap9.State, keeping the fields v9.go reads. -/
structure DatacapStateRaw where
  governor : String
  token : TokenState
deriving DecidableEq, Repr

/-- datacap9.ConstructState: a genesis-equivalent empty state whose empty
balances map is written with the given bit-width and sha256. -/
def constructState (governor : String) (bitwidth : Nat) : DatacapStateRaw :=
  { governor := governor
    token :=
      { hamtBitWidth := bitwidth
        balances :=
          { writtenWith := { bitwidth := bitwidth, hashFn := .sha256 }
            entries := [] } } }

/-- state9: the v9 adapter wrapping the raw generated state. -/
structure state9 where
  state : DatacapStateRaw
deriving DecidableEq, Repr

/-- make9: build a state9 around a freshly constructed state. -/
def make9 (governor : String) (bitwidth : Nat) : state9 :=
  { state := constructState governor bitwidth }

/-- state9.Governor. -/
def state9.Governor (s : state9) : String :=
  s.state.governor

/-- state9.VerifiedClients: open Token.Balances with the bit-width stored in
the state. -/
def state9.VerifiedClients (s : state9) : AdtMapHandle :=
  adtAsMap s.state.token.balances s.state.token.hamtBitWidth

/-- state9.VerifiedClientsMapBitWidth. -/
def state9.VerifiedClientsMapBitWidth (s : state9) : Nat :=
  s.state.token.hamtBitWidth

/-- state9.VerifiedClientsMapHashFunction: sha256. -/
def state9.VerifiedClientsMapHashFunction (_ : state9) : HashFunction :=
  .sha256

/-- state9.VerifiedClientDataCap, through the shared getDataCap helper
(modelled from the spec: a single-key lookup returning (present, allowance);
the helper is not under src/): open the verified-client map and look the
address up, returning (false, 0) when absent. -/
def state9.VerifiedClientDataCap (s : state9) (addr : String) : Bool × Nat :=
  match s.VerifiedClients.get addr with
  | some v => (true, v)
  | none => (false, 0)

/-- Modelled from the spec: inserting a (address, allowance) entry through
the version's map machinery — open the verified-client map with the state's
declared configuration, put the entry, and store the new root back. -/
def state9.insertVerifiedClient (s : state9) (addr : String) (value : Nat) :
    state9 :=
  { state :=
      { s.state with
        token :=
          { s.state.token with
            balances := s.VerifiedClients.put addr value } } }

/-- actors.DatacapKey. -/
def DatacapKey : String := "datacap"

/-- state9.ActorKey. -/
def state9.ActorKey (_ : state9) : String := DatacapKey

/-- state9.ActorVersion: protocol version 9. -/
def state9.ActorVersion (_ : state9) : Nat := 9

/-- Modelled from the spec: actors.GetActorCodeID (chain/actors is not under
src/), a version-to-code dispatch table lookup over (version, actor key)
pairs that reports presence with an ok flag. -/
def GetActorCodeID (table : List ((Nat × String) × String)) (version : Nat)
    (key : String) : Option String :=
  table.lookup (version, key)

/-- state9.Code: look the (version, key) pair up in the dispatch table and
panic — aborting the process — when the pair has no mapping. -/
def state9.Code (table : List ((Nat × String) × String)) (s : state9) :
    GoResult String :=
  match GetActorCodeID table s.ActorVersion s.ActorKey with
  | some code => .ok code
  | none =>
    .crash ("did not find actor " ++ s.ActorKey ++
      " code id for actor version 9")

/-
Theorems.
-/

/-- A miner state with a single partition 0 owning sectors 1, 2, 3. -/
def exC1Miner : MinerState where
  deadlineInfo := fun _ => .ok { index := 0 }
  loadDeadline := fun _ =>
    .ok { partitionsOf := [(0, { allSectorsSet := [1, 2, 3] })] }

/-- A successfully executed SubmitWindowedPoSt message whose decoded
parameters reference partition index 1, absent from exC1Miner. -/
def exC1Msg : ExecutedMessage where
  message :=
    { toAddr := "f01000"
      method := 5
      params := some { partitions := [{ index := 1, skipped := [] }] } }
  receipt := some { exitCode := 0 }
  cid := "bafymsgone"

/-- C1: the code indexes the lazily loaded partition map without a presence
check (post.go line 82), so a successfully decoded transaction referencing a
partition index absent from the map makes the call dereference the nil
miner.Partition interface and panic: the process crashes instead of the call
returning an explicit fatal error. -/
theorem extract_missing_partition_crashes :
    PoStExtractor.Extract { prev := some (exC1Miner, 7) } "f01000"
        (.ok [exC1Msg]) =
      .crash "invalid memory address or nil pointer dereference" := by
  rfl

/-- C2: state9.Code on a dispatch table with no mapping for the
(datacap, version 9) pair panics (v9.go line 88), aborting the process
instead of returning an explicit error result. -/
theorem code_unmapped_pair_aborts :
    state9.Code [] (make9 "f080" 3) =
      .crash "did not find actor datacap code id for actor version 9" := by
  rfl

/-- C4: with no previous state the call returns the (nil, nil) genesis
result for every outcome of the executed-message fetch — including a failing
fetch — so the empty result is produced without fetching any executed
transactions. -/
theorem extract_genesis_empty (ec : MinerStateExtractionContext)
    (h : ec.prev = none) (addr : String)
    (fetch : GoResult (List ExecutedMessage)) :
    PoStExtractor.Extract ec addr fetch = .ok none := by
  unfold PoStExtractor.Extract
  rw [h]

/-- Witness for C4 at a context with no previous state and a fetch that
would fail if attempted. -/
theorem extract_genesis_empty_witness :
    PoStExtractor.Extract { prev := none } "f01001" (.err "fetch refused") =
      .ok none :=
  extract_genesis_empty { prev := none } rfl "f01001" (.err "fetch refused")

/-- C10: a call that succeeds with a previous state present returns a
non-nil (some) record list even when it is empty, while the genesis
short-circuit returns nil (none), so the caller can distinguish the two. -/
theorem extract_result_discriminates_genesis
    (ec : MinerStateExtractionContext) (addr : String)
    (fetch : GoResult (List ExecutedMessage))
    (r : Option (List MinerSectorPost))
    (h : PoStExtractor.Extract ec addr fetch = .ok r) :
    (ec.prev = none → r = none) ∧
    (∀ pr, ec.prev = some pr → ∃ l, r = some l) := by
  constructor
  · intro hp
    unfold PoStExtractor.Extract at h
    rw [hp] at h
    injection h with h
    exact h.symm
  · rintro ⟨ps, ph⟩ hp
    unfold PoStExtractor.Extract at h
    rw [hp] at h
    dsimp only at h
    cases fetch with
    | err e => cases h
    | crash e => cases h
    | ok msgs =>
      dsimp only at h
      cases hx : extractLoop ps ph addr
          { posts := [], partitions := none, partitionLoads := 0 } msgs with
      | ok st =>
        rw [hx] at h
        injection h with h
        exact ⟨st.posts, h.symm⟩
      | err e => rw [hx] at h; cases h
      | crash e => rw [hx] at h; cases h

/-- A miner state whose open deadline has no partitions. -/
def exC10Miner : MinerState where
  deadlineInfo := fun _ => .ok { index := 0 }
  loadDeadline := fun _ => .ok { partitionsOf := [] }

/-- Witness for C10 at a completed call with a previous state and no
messages: the result is some [] rather than none. -/
theorem extract_result_discriminates_genesis_witness :
    ((({ prev := some (exC10Miner, 4) } :
          MinerStateExtractionContext).prev = none →
        (some ([] : List MinerSectorPost)) = none) ∧
      (∀ pr, ({ prev := some (exC10Miner, 4) } :
          MinerStateExtractionContext).prev = some pr →
        ∃ l, (some ([] : List MinerSectorPost)) = some l)) :=
  extract_result_discriminates_genesis { prev := some (exC10Miner, 4) }
    "f01002" (.ok []) (some []) rfl

/-- Processing a message whose receipt is absent or failed returns the loop
state unchanged, whatever the parameter bytes hold. -/
theorem processPostMsg_receipt_failed (ms : MinerState) (ph : Nat)
    (addr : String) (st : LoopState) (m : ExecutedMessage)
    (h : receiptFailed m = true) :
    processPostMsg ms ph addr st m = .ok st := by
  unfold processPostMsg
  rw [h]
  rfl

/-- Deleting a failed-receipt message from the executed list anywhere does
not change the loop result, from any loop state. -/
theorem extractLoop_skip_failed (ms : MinerState) (ph : Nat) (addr : String)
    (m : ExecutedMessage) (h : receiptFailed m = true)
    (pre post : List ExecutedMessage) (st : LoopState) :
    extractLoop ms ph addr st (pre ++ m :: post) =
      extractLoop ms ph addr st (pre ++ post) := by
  induction pre generalizing st with
  | nil =>
    simp only [List.nil_append, extractLoop]
    by_cases hq : (m.message.toAddr == addr && m.message.method == 5) = true
    · rw [if_pos hq, processPostMsg_receipt_failed ms ph addr st m h]
    · rw [if_neg hq]
  | cons x pre ih =>
    simp only [List.cons_append, extractLoop]
    by_cases hq : (x.message.toAddr == addr && x.message.method == 5) = true
    · simp only [if_pos hq]
      cases processPostMsg ms ph addr st x with
      | ok st2 => exact ih st2
      | err e => rfl
      | crash e => rfl
    · simp only [if_neg hq]
      exact ih st

/-- C5: a transaction whose receipt is absent or reports failure is skipped
before its parameters are decoded: removing it from the executed list leaves
the whole call result unchanged — it contributes zero records and no error,
whatever its parameter bytes are (including malformed ones). -/
theorem extract_skips_failed_receipt (ms : MinerState) (ph : Nat)
    (addr : String) (m : ExecutedMessage) (h : receiptFailed m = true)
    (pre post : List ExecutedMessage) :
    PoStExtractor.Extract { prev := some (ms, ph) } addr
        (.ok (pre ++ m :: post)) =
      PoStExtractor.Extract { prev := some (ms, ph) } addr
        (.ok (pre ++ post)) := by
  unfold PoStExtractor.Extract
  dsimp only
  rw [extractLoop_skip_failed ms ph addr m h pre post]

/-- A miner state used by the C5 witness. -/
def exC5Miner : MinerState where
  deadlineInfo := fun _ => .ok { index := 0 }
  loadDeadline := fun _ =>
    .ok { partitionsOf := [(0, { allSectorsSet := [1] })] }

/-- A qualifying message with a failed receipt and malformed (undecodable)
parameter bytes. -/
def exC5Bad : ExecutedMessage where
  message := { toAddr := "f01005", method := 5, params := none }
  receipt := some { exitCode := 16 }
  cid := "bafybad"

/-- Witness for C5: the call over just the failed-receipt malformed message
equals the call over no messages at all. -/
theorem extract_skips_failed_receipt_witness :
    PoStExtractor.Extract { prev := some (exC5Miner, 9) } "f01005"
        (.ok [exC5Bad]) =
      PoStExtractor.Extract { prev := some (exC5Miner, 9) } "f01005"
        (.ok []) :=
  extract_skips_failed_receipt exC5Miner 9 "f01005" exC5Bad rfl [] []

/-- C9: a qualifying successful transaction whose decoded partition list is
empty leaves the record list unchanged and returns no error (only the
partition-map cache is filled), and a partition whose skipped set contains
its whole sector set contributes nothing to the collected sectors and no
error. -/
theorem empty_partitions_and_full_skip_no_records :
    (∀ (ms : MinerState) (ph : Nat) (addr : String) (st : LoopState)
        (m : ExecutedMessage) (pmap : List (Nat × PartitionData)) (n : Nat),
      receiptFailed m = false →
      m.message.params = some { partitions := [] } →
      ensurePartitions ms ph st = .ok (pmap, n) →
      processPostMsg ms ph addr st m =
        .ok { posts := st.posts, partitions := some pmap,
              partitionLoads := n }) ∧
    (∀ (pmap : List (Nat × PartitionData)) (p : PoStPartition)
        (rest : List PoStPartition) (d : PartitionData),
      pmap.lookup p.index = some d →
      (∀ s ∈ d.allSectorsSet, p.skipped.contains s = true) →
      collectSectors pmap (p :: rest) = collectSectors pmap rest) := by
  constructor
  · intro ms ph addr st m pmap n hr hp he
    unfold processPostMsg
    rw [hr, hp, he]
    simp only [Bool.false_eq_true, if_false]
    dsimp only [collectSectors]
    simp only [List.map_nil, List.append_nil]
  · intro pmap p rest d hd hskip
    have hempty : subtractBitField d.allSectorsSet p.skipped = [] := by
      apply List.filter_eq_nil_iff.mpr
      intro s hs
      simp only [hskip s hs, Bool.not_true, Bool.false_eq_true,
        not_false_eq_true]
    cases hrest : collectSectors pmap rest with
    | ok tail =>
      simp only [collectSectors, hd, hrest, Partition.AllSectors, hempty,
        List.nil_append]
    | err e =>
      simp only [collectSectors, hd, hrest, Partition.AllSectors]
    | crash e =>
      simp only [collectSectors, hd, hrest, Partition.AllSectors]

/-- A miner state whose deadline carries partition 0 with sectors 1, 2, 3;
used by the C9 witness. -/
def exC9Miner : MinerState where
  deadlineInfo := fun _ => .ok { index := 0 }
  loadDeadline := fun _ =>
    .ok { partitionsOf := [(0, { allSectorsSet := [1, 2, 3] })] }

/-- The partition map exC9Miner loads. -/
def exC9Map : List (Nat × PartitionData) := [(0, { allSectorsSet := [1, 2, 3] })]

/-- A qualifying successful message whose decoded partition list is empty. -/
def exC9Empty : ExecutedMessage where
  message := { toAddr := "f01009", method := 5
               params := some { partitions := [] } }
  receipt := some { exitCode := 0 }
  cid := "bafyninea"

/-- Witness for C9: the empty-partition-list message only fills the cache,
and a partition whose skipped set covers its full set {1,2,3} contributes
nothing. -/
theorem empty_partitions_and_full_skip_no_records_witness :
    (processPostMsg exC9Miner 3 "f01009"
        { posts := [], partitions := none, partitionLoads := 0 } exC9Empty =
      .ok { posts := [], partitions := some exC9Map, partitionLoads := 1 }) ∧
    (collectSectors exC9Map [{ index := 0, skipped := [1, 2, 3] }] =
      collectSectors exC9Map []) :=
  ⟨empty_partitions_and_full_skip_no_records.1 exC9Miner 3 "f01009"
      { posts := [], partitions := none, partitionLoads := 0 } exC9Empty
      exC9Map 1 rfl rfl rfl,
    empty_partitions_and_full_skip_no_records.2 exC9Map
      { index := 0, skipped := [1, 2, 3] } [] { allSectorsSet := [1, 2, 3] }
      rfl (by decide)⟩

/-- C8: starting from the v9 map construction (any governor and bit-width)
and after any sequence of prior insertions, inserting an (address, allowance)
entry through the version's map machinery and looking it up through
VerifiedClientDataCap — which opens the map with the version's declared
bit-width and hash function — returns present = true with the inserted
allowance. Version 9 is the only version whose adapter is in scope. -/
theorem verified_client_roundtrip (governor : String) (bitwidth : Nat)
    (prior : List (String × Nat)) (addr : String) (amount : Nat) :
    state9.VerifiedClientDataCap
      (state9.insertVerifiedClient
        (List.foldl (fun s kv => state9.insertVerifiedClient s kv.1 kv.2)
          (make9 governor bitwidth) prior)
        addr amount)
      addr = (true, amount) := by
  generalize List.foldl _ (make9 governor bitwidth) prior = s
  simp [state9.VerifiedClientDataCap, state9.insertVerifiedClient,
    state9.VerifiedClients, adtAsMap, AdtMapHandle.get, AdtMapHandle.put,
    List.lookup]

/-- When every referenced partition index is present, the collected sectors
are, partition by partition in order, the difference between the partition's
full sector set and the skipped set. -/
theorem collectSectors_eq (pmap : List (Nat × PartitionData))
    (pl : List PoStPartition)
    (h : ∀ p ∈ pl, (pmap.lookup p.index).isSome = true) :
    collectSectors pmap pl =
      .ok (pl.flatMap fun p =>
        subtractBitField
          ((pmap.lookup p.index).getD { allSectorsSet := [] }).allSectorsSet
          p.skipped) := by
  induction pl with
  | nil => rfl
  | cons p rest ih =>
    obtain ⟨d, hd⟩ :=
      Option.isSome_iff_exists.mp (h p (List.mem_cons_self p rest))
    have hrest := ih (fun q hq => h q (List.mem_cons_of_mem p hq))
    simp only [collectSectors, hd, hrest, Partition.AllSectors,
      List.flatMap_cons, Option.getD_some]

/-- C6: a call over one qualifying successful transaction emits, for each
(partition index, skipped set) pair in decoded order, exactly one record per
element of difference(fullSectors, skipped), each tagged with the previous
tipset's height, the miner's address, the sector id and the transaction's
hash. -/
theorem records_per_partition (ms : MinerState) (ph : Nat) (addr : String)
    (m : ExecutedMessage) (pl : List PoStPartition)
    (pmap : List (Nat × PartitionData))
    (hload : loadPartitions ms ph = .ok pmap)
    (hq : (m.message.toAddr == addr && m.message.method == 5) = true)
    (hr : receiptFailed m = false)
    (hp : m.message.params = some { partitions := pl })
    (hpres : ∀ p ∈ pl, (pmap.lookup p.index).isSome = true) :
    PoStExtractor.Extract { prev := some (ms, ph) } addr (.ok [m]) =
      .ok (some ((pl.flatMap fun p =>
          subtractBitField
            ((pmap.lookup p.index).getD
              { allSectorsSet := [] }).allSectorsSet
            p.skipped).map
        fun s =>
          { height := Int.ofNat ph, minerID := addr, sectorID := s,
            postMessageCID := m.cid })) := by
  unfold PoStExtractor.Extract
  dsimp only
  simp only [extractLoop, if_pos hq, processPostMsg, hr, Bool.false_eq_true,
    if_false, hp, ensurePartitions, hload, collectSectors_eq pmap pl hpres,
    List.nil_append]

/-- The miner state of the spec's worked example: partition 0 owns sectors
{1, 2, 3}. -/
def exC6Miner : MinerState where
  deadlineInfo := fun _ => .ok { index := 0 }
  loadDeadline := fun _ =>
    .ok { partitionsOf := [(0, { allSectorsSet := [1, 2, 3] })] }

/-- The spec's worked example transaction: partitions [{index: 0,
skipped: {2}}], successfully executed. -/
def exC6Msg : ExecutedMessage where
  message :=
    { toAddr := "f01006"
      method := 5
      params := some { partitions := [{ index := 0, skipped := [2] }] } }
  receipt := some { exitCode := 0 }
  cid := "bafysix"

/-- Witness for C6 at the spec's example: records are emitted for sectors
{1, 3} only, at the previous tipset's height 11. -/
theorem records_per_partition_witness :
    PoStExtractor.Extract { prev := some (exC6Miner, 11) } "f01006"
        (.ok [exC6Msg]) =
      .ok (some
        [{ height := 11, minerID := "f01006", sectorID := 1,
           postMessageCID := "bafysix" },
         { height := 11, minerID := "f01006", sectorID := 3,
           postMessageCID := "bafysix" }]) :=
  (records_per_partition exC6Miner 11 "f01006" exC6Msg
      [{ index := 0, skipped := [2] }] [(0, { allSectorsSet := [1, 2, 3] })]
      rfl rfl rfl rfl (by decide)).trans (by decide)

/-- The partition-cache invariant: no load has happened while the cache is
empty, and a filled cache was filled by exactly one load of the previous
state at the previous height. -/
def cacheInv (ms : MinerState) (ph : Nat) (st : LoopState) : Prop :=
  (st.partitions = none → st.partitionLoads = 0) ∧
  ∀ pmap, st.partitions = some pmap →
    loadPartitions ms ph = .ok pmap ∧ st.partitionLoads = 1

/-- A successful lazy-load step starting from a state satisfying the cache
invariant yields the partition map of the previous state at the previous
height, with exactly one load performed in total. -/
theorem ensurePartitions_cacheInv (ms : MinerState) (ph : Nat)
    (st : LoopState) (pmap : List (Nat × PartitionData)) (loads : Nat)
    (hinv : cacheInv ms ph st)
    (h : ensurePartitions ms ph st = .ok (pmap, loads)) :
    loadPartitions ms ph = .ok pmap ∧ loads = 1 := by
  unfold ensurePartitions at h
  cases hp : st.partitions with
  | some pm =>
    rw [hp] at h
    injection h with h
    injection h with h1 h2
    obtain ⟨hl, hn⟩ := hinv.2 pm hp
    constructor
    · rw [← h1]; exact hl
    · rw [← h2]; exact hn
  | none =>
    rw [hp] at h
    dsimp only at h
    cases hl : loadPartitions ms ph with
    | ok pm =>
      rw [hl] at h
      injection h with h
      injection h with h1 h2
      constructor
      · rw [← h1]
      · rw [← h2, hinv.1 hp]
    | err e => rw [hl] at h; cases h
    | crash e => rw [hl] at h; cases h

/-- Processing one message preserves the partition-cache invariant. -/
theorem processPostMsg_cacheInv (ms : MinerState) (ph : Nat) (addr : String)
    (st : LoopState) (m : ExecutedMessage) (st2 : LoopState)
    (hinv : cacheInv ms ph st)
    (h : processPostMsg ms ph addr st m = .ok st2) :
    cacheInv ms ph st2 := by
  unfold processPostMsg at h
  by_cases hr : receiptFailed m = true
  · rw [if_pos hr] at h
    injection h with h
    exact h ▸ hinv
  · rw [if_neg hr] at h
    cases hp : m.message.params with
    | none => rw [hp] at h; cases h
    | some params =>
      rw [hp] at h
      dsimp only at h
      cases hep : ensurePartitions ms ph st with
      | err e => rw [hep] at h; cases h
      | crash e => rw [hep] at h; cases h
      | ok pr =>
        obtain ⟨pmap, loads⟩ := pr
        rw [hep] at h
        dsimp only at h
        cases hcs : collectSectors pmap params.partitions with
        | err e => rw [hcs] at h; cases h
        | crash e => rw [hcs] at h; cases h
        | ok sectors =>
          rw [hcs] at h
          injection h with h
          obtain ⟨hl, hn⟩ := ensurePartitions_cacheInv ms ph st pmap loads
            hinv hep
          subst h
          refine ⟨fun hx => ?_, fun pm hpm => ?_⟩
          · cases hx
          · injection hpm with hpm
            exact ⟨hpm ▸ hl, hn⟩

/-- The message loop preserves the partition-cache invariant. -/
theorem extractLoop_cacheInv (ms : MinerState) (ph : Nat) (addr : String) :
    ∀ (msgs : List ExecutedMessage) (st st' : LoopState),
      cacheInv ms ph st →
      extractLoop ms ph addr st msgs = .ok st' →
      cacheInv ms ph st' := by
  intro msgs
  induction msgs with
  | nil =>
    intro st st' hinv h
    injection h with h
    exact h ▸ hinv
  | cons m rest ih =>
    intro st st' hinv h
    simp only [extractLoop] at h
    by_cases hq : (m.message.toAddr == addr && m.message.method == 5) = true
    · rw [if_pos hq] at h
      cases hpm : processPostMsg ms ph addr st m with
      | ok st2 =>
        rw [hpm] at h
        exact ih st2 st'
          (processPostMsg_cacheInv ms ph addr st m st2 hinv hpm) h
      | err e => rw [hpm] at h; cases h
      | crash e => rw [hpm] at h; cases h
    · rw [if_neg hq] at h
      exact ih st st' hinv h

/-- When no message is qualifying, successfully executed and decodable, a
successful loop leaves the state untouched. -/
theorem extractLoop_no_decoded (ms : MinerState) (ph : Nat) (addr : String) :
    ∀ (msgs : List ExecutedMessage) (st st' : LoopState),
      (∀ m ∈ msgs, decodedQualifying addr m = false) →
      extractLoop ms ph addr st msgs = .ok st' →
      st' = st := by
  intro msgs
  induction msgs with
  | nil =>
    intro st st' _ h
    injection h with h
    exact h.symm
  | cons m rest ih =>
    intro st st' hall h
    simp only [extractLoop] at h
    by_cases hq : (m.message.toAddr == addr && m.message.method == 5) = true
    · rw [if_pos hq] at h
      have hm := hall m (List.mem_cons_self m rest)
      by_cases hr : receiptFailed m = true
      · rw [processPostMsg_receipt_failed ms ph addr st m hr] at h
        exact ih st st' (fun x hx => hall x (List.mem_cons_of_mem m hx)) h
      · have hr2 : receiptFailed m = false := by
          revert hr; cases receiptFailed m <;> simp
        cases hps : m.message.params with
        | some ps =>
          exfalso
          simp [decodedQualifying, qualifies, receiptOk, hq, hr2, hps] at hm
        | none =>
          unfold processPostMsg at h
          rw [if_neg hr, hps] at h
          cases h
    · rw [if_neg hq] at h
      exact ih st st' (fun x hx => hall x (List.mem_cons_of_mem m hx)) h

/-- C7: within one extraction call the partition map is loaded at most once
and only lazily — a successful loop that saw no qualifying decoded
transaction performed no load and left the cache empty — and whatever the
cache holds is exactly what loadPartitions returns for the previous state at
the previous tipset's height, which is how Extract invokes the loop
(post.go line 75). -/
theorem partitions_loaded_once (ms : MinerState) (ph : Nat) (addr : String)
    (msgs : List ExecutedMessage) (st' : LoopState)
    (h : extractLoop ms ph addr
        { posts := [], partitions := none, partitionLoads := 0 } msgs =
      .ok st') :
    st'.partitionLoads ≤ 1 ∧
    (∀ pmap, st'.partitions = some pmap →
      loadPartitions ms ph = .ok pmap) ∧
    ((∀ m ∈ msgs, decodedQualifying addr m = false) →
      st'.partitionLoads = 0 ∧ st'.partitions = none) := by
  have hinv0 : cacheInv ms ph
      { posts := [], partitions := none, partitionLoads := 0 } :=
    ⟨fun _ => rfl, fun pm hpm => by cases hpm⟩
  have hinv := extractLoop_cacheInv ms ph addr msgs _ st' hinv0 h
  refine ⟨?_, ?_, ?_⟩
  · cases hsp : st'.partitions with
    | none => rw [hinv.1 hsp]; exact Nat.zero_le 1
    | some pm => rw [(hinv.2 pm hsp).2]
  · intro pmap hpm
    exact (hinv.2 pmap hpm).1
  · intro hall
    rw [extractLoop_no_decoded ms ph addr msgs _ st' hall h]
    exact ⟨rfl, rfl⟩

/-- A miner state whose deadline has partition 0 owning sectors 1 and 2;
used by the C7 witness. -/
def exC7Miner : MinerState where
  deadlineInfo := fun _ => .ok { index := 0 }
  loadDeadline := fun _ =>
    .ok { partitionsOf := [(0, { allSectorsSet := [1, 2] })] }

/-- First qualifying decoded message of the C7 witness: no skipped sectors. -/
def exC7MsgA : ExecutedMessage where
  message :=
    { toAddr := "f01007"
      method := 5
      params := some { partitions := [{ index := 0, skipped := [] }] } }
  receipt := some { exitCode := 0 }
  cid := "bafysa"

/-- Second qualifying decoded message of the C7 witness: sector 1 skipped. -/
def exC7MsgB : ExecutedMessage where
  message :=
    { toAddr := "f01007"
      method := 5
      params := some { partitions := [{ index := 0, skipped := [1] }] } }
  receipt := some { exitCode := 0 }
  cid := "bafysb"

/-- The loop state the C7 witness run ends in: records from both messages,
the cached partition map, and a single load. -/
def exC7Final : LoopState where
  posts :=
    [{ height := 5, minerID := "f01007", sectorID := 1,
       postMessageCID := "bafysa" },
     { height := 5, minerID := "f01007", sectorID := 2,
       postMessageCID := "bafysa" },
     { height := 5, minerID := "f01007", sectorID := 2,
       postMessageCID := "bafysb" }]
  partitions := some [(0, { allSectorsSet := [1, 2] })]
  partitionLoads := 1

/-- Witness for C7: a run over two qualifying decoded messages performs
exactly one partition-map load. -/
theorem partitions_loaded_once_witness :
    exC7Final.partitionLoads ≤ 1 ∧
    (∀ pmap, exC7Final.partitions = some pmap →
      loadPartitions exC7Miner 5 = .ok pmap) ∧
    ((∀ m ∈ [exC7MsgA, exC7MsgB], decodedQualifying "f01007" m = false) →
      exC7Final.partitionLoads = 0 ∧ exC7Final.partitions = none) :=
  partitions_loaded_once exC7Miner 5 "f01007" [exC7MsgA, exC7MsgB] exC7Final
    (by decide)

/-- Processing a qualifying message with a successful receipt and malformed
parameter bytes fails with the decode error. -/
theorem processPostMsg_decode_failure (ms : MinerState) (ph : Nat)
    (addr : String) (st : LoopState) (m : ExecutedMessage)
    (hr : receiptFailed m = false) (hp : m.message.params = none) :
    processPostMsg ms ph addr st m = .err "unmarshal post params" := by
  unfold processPostMsg
  rw [if_neg (by simp [hr]), hp]

/-- Processing a decoded successful message whose referenced partitions are
all present succeeds, leaving the cache filled with the loaded map. -/
theorem processPostMsg_decoded_ok (ms : MinerState) (ph : Nat)
    (addr : String) (st : LoopState) (m : ExecutedMessage)
    (pmap : List (Nat × PartitionData)) (ps : SubmitWindowedPoStParams)
    (hload : loadPartitions ms ph = .ok pmap)
    (hcache : st.partitions = none ∨ st.partitions = some pmap)
    (hr : receiptFailed m = false)
    (hp : m.message.params = some ps)
    (hpres : ∀ p ∈ ps.partitions, (pmap.lookup p.index).isSome = true) :
    ∃ st2, processPostMsg ms ph addr st m = .ok st2 ∧
      st2.partitions = some pmap := by
  have hens : ∃ n, ensurePartitions ms ph st = .ok (pmap, n) := by
    unfold ensurePartitions
    cases hcache with
    | inl hnone =>
      rw [hnone]
      dsimp only
      rw [hload]
      exact ⟨st.partitionLoads + 1, rfl⟩
    | inr hsome =>
      rw [hsome]
      exact ⟨st.partitionLoads, rfl⟩
  obtain ⟨n, hens⟩ := hens
  unfold processPostMsg
  simp only [hr, Bool.false_eq_true, if_false, hp, hens,
    collectSectors_eq pmap ps.partitions hpres]
  exact ⟨_, rfl, rfl⟩

/-- From any loop state whose cache is empty or holds the previous state's
map, a message list containing a qualifying successful undecodable message —
all of whose qualifying successful decodable messages reference only present
partitions — drives the loop to the decode error. -/
theorem extractLoop_decode_failure (ms : MinerState) (ph : Nat)
    (addr : String) (pmap : List (Nat × PartitionData))
    (hload : loadPartitions ms ph = .ok pmap) :
    ∀ (msgs : List ExecutedMessage) (st : LoopState),
      (st.partitions = none ∨ st.partitions = some pmap) →
      (∀ m ∈ msgs, qualifies addr m = true → receiptFailed m = false →
        ∀ p ∈ (m.message.params.getD { partitions := [] }).partitions,
          (pmap.lookup p.index).isSome = true) →
      (∃ m ∈ msgs, qualifies addr m = true ∧ receiptFailed m = false ∧
        m.message.params = none) →
      extractLoop ms ph addr st msgs =
        .err ("process post msg: " ++ "unmarshal post params") := by
  intro msgs
  induction msgs with
  | nil =>
    intro st _ _ hfail
    obtain ⟨m, hm, _⟩ := hfail
    cases hm
  | cons x rest ih =>
    intro st hcache hpres hfail
    simp only [extractLoop]
    by_cases hq : (x.message.toAddr == addr && x.message.method == 5) = true
    · rw [if_pos hq]
      by_cases hr : receiptFailed x = true
      · rw [processPostMsg_receipt_failed ms ph addr st x hr]
        apply ih st hcache
          (fun m hm => hpres m (List.mem_cons_of_mem x hm))
        obtain ⟨m, hm, hmq, hmr, hmp⟩ := hfail
        rcases List.mem_cons.mp hm with h1 | h1
        · subst h1
          rw [hr] at hmr
          cases hmr
        · exact ⟨m, h1, hmq, hmr, hmp⟩
      · have hr2 : receiptFailed x = false := by
          revert hr; cases receiptFailed x <;> simp
        cases hxp : x.message.params with
        | none =>
          rw [processPostMsg_decode_failure ms ph addr st x hr2 hxp]
        | some ps =>
          have hxpres :
              ∀ p ∈ ps.partitions, (pmap.lookup p.index).isSome = true := by
            have := hpres x (List.mem_cons_self x rest) hq hr2
            rw [hxp] at this
            exact this
          obtain ⟨st2, hst2, hcache2⟩ := processPostMsg_decoded_ok ms ph addr
            st x pmap ps hload hcache hr2 hxp hxpres
          rw [hst2]
          apply ih st2 (Or.inr hcache2)
            (fun m hm => hpres m (List.mem_cons_of_mem x hm))
          obtain ⟨m, hm, hmq, hmr, hmp⟩ := hfail
          rcases List.mem_cons.mp hm with h1 | h1
          · subst h1
            rw [hxp] at hmp
            cases hmp
          · exact ⟨m, h1, hmq, hmr, hmp⟩
    · rw [if_neg hq]
      apply ih st hcache
        (fun m hm => hpres m (List.mem_cons_of_mem x hm))
      obtain ⟨m, hm, hmq, hmr, hmp⟩ := hfail
      rcases List.mem_cons.mp hm with h1 | h1
      · subst h1
        exact absurd hmq hq
      · exact ⟨m, h1, hmq, hmr, hmp⟩

/-- C3: when some qualifying successful transaction has malformed parameter
bytes — and nothing else in the call fails first (the partition map loads
and every decodable qualifying transaction references only present
partitions) — the whole call returns the decode error, emitting no records
at all, including those other qualifying transactions would have produced. -/
theorem decode_failure_fatal (ms : MinerState) (ph : Nat) (addr : String)
    (msgs : List ExecutedMessage) (pmap : List (Nat × PartitionData))
    (hload : loadPartitions ms ph = .ok pmap)
    (hpres : ∀ m ∈ msgs, qualifies addr m = true → receiptFailed m = false →
      ∀ p ∈ (m.message.params.getD { partitions := [] }).partitions,
        (pmap.lookup p.index).isSome = true)
    (hfail : ∃ m ∈ msgs, qualifies addr m = true ∧ receiptFailed m = false ∧
      m.message.params = none) :
    PoStExtractor.Extract { prev := some (ms, ph) } addr (.ok msgs) =
      .err ("process post msg: " ++ "unmarshal post params") := by
  unfold PoStExtractor.Extract
  dsimp only
  rw [extractLoop_decode_failure ms ph addr pmap hload msgs _ (Or.inl rfl)
    hpres hfail]

/-- The miner state of the C3 witness: partition 0 owns sectors 1 and 2. -/
def exC3Miner : MinerState where
  deadlineInfo := fun _ => .ok { index := 0 }
  loadDeadline := fun _ =>
    .ok { partitionsOf := [(0, { allSectorsSet := [1, 2] })] }

/-- A qualifying successful message that decodes fine and would have
produced records for sectors 1 and 2. -/
def exC3Good : ExecutedMessage where
  message :=
    { toAddr := "f01003"
      method := 5
      params := some { partitions := [{ index := 0, skipped := [] }] } }
  receipt := some { exitCode := 0 }
  cid := "bafygood"

/-- A qualifying successful message with malformed parameter bytes. -/
def exC3Bad : ExecutedMessage where
  message := { toAddr := "f01003", method := 5, params := none }
  receipt := some { exitCode := 0 }
  cid := "bafybadp"

/-- Witness for C3: with a processable message first and an undecodable one
second, the whole call returns the decode error and no records. -/
theorem decode_failure_fatal_witness :
    PoStExtractor.Extract { prev := some (exC3Miner, 6) } "f01003"
        (.ok [exC3Good, exC3Bad]) =
      .err ("process post msg: " ++ "unmarshal post params") :=
  decode_failure_fatal exC3Miner 6 "f01003" [exC3Good, exC3Bad]
    [(0, { allSectorsSet := [1, 2] })] rfl (by decide)
    ⟨exC3Bad, by decide, by decide, by decide, by decide⟩

end Lily
